import Mathlib

/-!
Verification of the commitment-extraction core of the call-recorder
repository: transcript chunking (src/chunking.py), structured-response
parsing and extraction orchestration (src/commitment_extractor.py,
src/summarizer.py), commitment normalization (src/database.py) and the
evaluation match engine (evaluation/evaluate.py).

Modelling conventions, used throughout:

* Python strings are `List Char` (`Str`).  Python slice and `str.rfind`
  semantics, including negative indices, are embedded explicitly
  (`pyIdx`, `pySlice`, `rfindNl`).  `str.lower` is modelled with
  `Char.toLower` (ASCII); the claims under study do not depend on
  non-ASCII case folding.
* Python floats are modelled as exact rationals (`ℚ`); the constants
  0.40, 0.35, 0.5, 0.3, 0.2, 0.33, 0.34, 0.25, 0.6, 0.8, 0.5 of the
  source become the corresponding rationals.
* `difflib.SequenceMatcher(None, a, b).ratio()` is a Python standard
  library function, not repository code; it is passed in as an oracle
  `ratio : Str → Str → ℚ`.  All theorems about the match engine hold
  for every oracle.
* `json.loads` is likewise an oracle `Loads : Str → Option Json` over an
  explicit JSON value type.  The repository logic around it (cleanup,
  validation, truncation repair) is embedded from the source.
* The network (`urllib.request.urlopen` against the inference service)
  is a trace oracle `Net : Nat → Option Str` indexed by call order;
  `none` is a transport failure (connection refused / timeout), which
  the source catches inside `_call_ollama` and converts to `None`.
* The unbounded `while` loop of `chunk_transcript` is embedded with an
  explicit fuel parameter; `none` means the loop has not finished within
  the given fuel.  A result that is `none` for every fuel is a
  non-terminating run.
-/

abbrev Str := List Char

/-! ## Python string primitives -/

/-- Resolve one end of a Python slice: negative indices count from the end
(clamped at 0), non-negative ones are clamped at the length. -/
def pyIdx (len : Nat) (i : Int) : Nat :=
  if i < 0 then ((len : Int) + i).toNat else min i.toNat len

/-- Python `s[a:b]` with full slice-notation index handling. -/
def pySlice (s : Str) (a b : Int) : Str :=
  (s.take (pyIdx s.length b)).drop (pyIdx s.length a)

/-- Python `s.rfind("\n", a, b)`: highest absolute index of a newline inside
`s[a:b]`, or `-1` when there is none. -/
def rfindNl (s : Str) (a b : Int) : Int :=
  let lo := pyIdx s.length a
  let hi := pyIdx s.length b
  match ((List.range s.length).filter
      (fun k => decide (lo ≤ k) && decide (k < hi) && (s.getD k ' ' == '\n'))).getLast? with
  | some k => (k : Int)
  | none => -1

/-- Python `str.strip()` (whitespace from both ends). -/
def stripStr (s : Str) : Str :=
  ((s.dropWhile Char.isWhitespace).reverse.dropWhile Char.isWhitespace).reverse

/-- Python `str.lower()` (ASCII case folding). -/
def lowerStr (s : Str) : Str := s.map Char.toLower

/-- Python `str.split()` with no separator: split on whitespace runs,
dropping empty fields. -/
def splitWs (s : Str) : List Str :=
  let r := s.foldr
    (fun c acc =>
      if c.isWhitespace then ([], if acc.1.isEmpty then acc.2 else acc.1 :: acc.2)
      else (c :: acc.1, acc.2))
    (([] : Str), ([] : List Str))
  if r.1.isEmpty then r.2 else r.1 :: r.2

/-- Python substring containment `needle in hay`. -/
def containsSeg (needle hay : Str) : Bool :=
  hay.tails.any (fun t => needle.isPrefixOf t)

/-- First index at which `needle` occurs in `hay` (Python `hay.find(needle)`
restricted to found/not-found). -/
def findSub (hay needle : Str) : Option Nat :=
  (List.range (hay.length + 1)).find? (fun k => needle.isPrefixOf (hay.drop k))

/-- Python `s.split("\n")` (exact split, empty fields preserved). -/
def splitOnNl (s : Str) : List Str :=
  s.foldr
    (fun c acc =>
      if c = '\n' then [] :: acc
      else match acc with
        | h :: t => (c :: h) :: t
        | [] => [[c]])
    [[]]

/-- Python truthy-`or` chain over optional strings with a final default:
returns the first present, non-empty string, else the default. -/
def pyOrD : List (Option Str) → Str → Str
  | [], dflt => dflt
  | some s :: rest, dflt => if s.isEmpty then pyOrD rest dflt else s
  | none :: rest, dflt => pyOrD rest dflt

/-! ## Chunking (src/chunking.py, `chunk_transcript`)

The source loop:

    while start < text_len:
        end = start + max_chars
        if end >= text_len:
            chunks.append(text[start:])
            break
        last_nl = text.rfind("\n", start, end)
        if last_nl > start:
            end = last_nl + 1
        chunks.append(text[start:end])
        start = end - overlap

embedded with fuel; `start` is an `Int` because the source lets it go
negative (Python then applies negative-index slice semantics). -/

namespace Chunking

def chunkLoop (text : Str) (max_chars overlap : Int) :
    Nat → Int → List Str → Option (List Str)
  | 0, _, _ => none
  | fuel + 1, start, chunks =>
    if start < (text.length : Int) then
      let e0 := start + max_chars
      if e0 ≥ (text.length : Int) then
        some (chunks ++ [pySlice text start (text.length : Int)])
      else
        let last_nl := rfindNl text start e0
        let e := if last_nl > start then last_nl + 1 else e0
        chunkLoop text max_chars overlap fuel (e - overlap) (chunks ++ [pySlice text start e])
    else some chunks

def chunk_transcript (text : Str) (max_chars overlap : Int) (fuel : Nat) :
    Option (List Str) :=
  if (text.length : Int) ≤ max_chars then some [text]
  else chunkLoop text max_chars overlap fuel 0 []

/-- The reconstruction of the spec: chunk 0 in full, every later chunk
with its first `overlap` characters removed, concatenated. -/
def reconstruct (overlap : Nat) : List Str → Str
  | [] => []
  | c :: rest => c ++ (rest.map (fun ch => ch.drop overlap)).flatten

end Chunking

/-- A transcript whose only newline sits near the start: the first cut is at
index 2, so `start` becomes `2 - overlap = -1` and Python slice semantics
take over. -/
def c1text : Str := "a\nbcdefghijk".data

/-- A text of length 33 whose only newline is at index 2. -/
def c4text : Str := "ab\n".data ++ List.replicate 30 'c'

/-! ## JSON values and the `json.loads` oracle

`json.loads` is Python standard library, not repository code; it is an
oracle `Loads` producing values of an explicit JSON type.  Everything the
repository does around it is embedded from the source. -/

inductive Json where
  | null : Json
  | bool : Bool → Json
  | num : ℚ → Json
  | str : Str → Json
  | arr : List Json → Json
  | obj : List (Str × Json) → Json

abbrev Loads := Str → Option Json

/-- Key lookup in a JSON object (Python `dict.get`; keys are unique in
dicts produced by `json.loads`, so first match suffices). -/
def lookupKey : List (Str × Json) → Str → Option Json
  | [], _ => none
  | (k, v) :: rest, key => if k = key then some v else lookupKey rest key

/-- Python `d[key] = v` on a dict: replace in place or append. -/
def setKey : List (Str × Json) → Str → Json → List (Str × Json)
  | [], k, v => [(k, v)]
  | (k', v') :: rest, k, v =>
    if k' = k then (k, v) :: rest else (k', v') :: setKey rest k v

/-- The extractor acceptance test:
`isinstance(parsed, dict) and isinstance(parsed.get("commitments"), list)`. -/
def acceptCommitments : Json → Bool
  | Json.obj fields =>
    match lookupKey fields "commitments".data with
    | some (Json.arr _) => true
    | _ => false
  | _ => false

/-! ## Shared response cleanup (think blocks, markdown fences)

The identical cleanup code appears in `_parse_json`
(src/commitment_extractor.py) and `Summarizer._parse_response`
(src/summarizer.py). -/

/-- Strip a leaked reasoning block: Python
`re.search(r"<think>.*?</think>\s*", text, re.DOTALL)` followed by
`text[match.end():].strip()`.  The leftmost match starts at the first
`<think>`; the non-greedy body ends at the first `</think>` after it;
when no closing tag follows, the text is left unchanged. -/
def stripThink (text : Str) : Str :=
  match findSub text "<think>".data with
  | none => text
  | some i =>
    match findSub (text.drop (i + 7)) "</think>".data with
    | none => text
    | some j =>
      stripStr ((text.drop (i + 7 + j + 8)).dropWhile Char.isWhitespace)

/-- Strip markdown code fences: if the text starts with three backticks,
drop every line that starts with three backticks and rejoin. -/
def stripFences (text : Str) : Str :=
  if "```".data.isPrefixOf text then
    List.intercalate ['\n']
      ((splitOnNl text).filter (fun l => !("```".data.isPrefixOf l)))
  else text

/-! ## Extractor-side parse (src/commitment_extractor.py, `_parse_json`) -/

namespace Extractor

/-- `_parse_json`: cleanup, one strict parse, structure validation.
There is no repair step in this function: a failed strict parse is `None`. -/
def parse_json (loads : Loads) (raw : Str) : Option Json :=
  match loads (stripStr (stripFences (stripThink raw))) with
  | none => none
  | some parsed => if acceptCommitments parsed then some parsed else none

end Extractor

/-! ## Summarizer-side parse (src/summarizer.py) -/

namespace Summarizer

/-- Python `text.rfind(c)` over the whole string. -/
def rfindCharAll (s : Str) (c : Char) : Int :=
  match ((List.range s.length).filter (fun k => s.getD k ' ' == c)).getLast? with
  | some k => (k : Int)
  | none => -1

/-- `Summarizer._try_repair_json`: truncate to the last closing brace,
balance unmatched brackets and braces counted in the prefix, retry the
parse, and mark the result with `_repaired` when it is a mapping. -/
def try_repair_json (loads : Loads) (text0 : Str) : Option Json :=
  let text := stripStr text0
  if ['\x7b'].isPrefixOf text then
    let last_brace := rfindCharAll text '\x7d'
    if last_brace ≤ 0 then none
    else
      let candidate := text.take (last_brace.toNat + 1)
      let open_braces : Int :=
        (candidate.count '\x7b' : Int) - (candidate.count '\x7d' : Int)
      let open_brackets : Int :=
        (candidate.count '[' : Int) - (candidate.count ']' : Int)
      let candidate2 := candidate ++ List.replicate open_brackets.toNat ']' ++
        List.replicate open_braces.toNat '\x7d'
      match loads candidate2 with
      | some (Json.obj fields) =>
        some (Json.obj (setKey fields "_repaired".data (Json.bool true)))
      | _ => none
  else none

/-- `Summarizer._parse_response`: cleanup, strict parse, repair fallback,
and acceptance of any mapping (no `commitments`-key requirement here). -/
def parse_response (loads : Loads) (response_text : Option Str) : Option Json :=
  match response_text with
  | none => none
  | some rt =>
    if rt.isEmpty then none
    else
      let text := stripFences (stripThink rt)
      match (match loads text with
             | some v => some v
             | none => try_repair_json loads text) with
      | some (Json.obj f) => some (Json.obj f)
      | _ => none

end Summarizer

/-- Modelled from the spec wording of claim C5 (spec section 4.2): a single
parser for commitment extraction that does a strict parse, then truncation
repair on failure, and accepts only a mapping whose `commitments` value is
a sequence.  This is the claimed behaviour, defined for comparison with
the source embedding `Extractor.parse_json`. -/
def claimedExtractionParse (loads : Loads) (raw : Str) : Option Json :=
  let text := stripStr (stripFences (stripThink raw))
  match (match loads text with
         | some v => some v
         | none => Summarizer.try_repair_json loads text) with
  | some v => if acceptCommitments v then some v else none
  | none => none

/-! ## Deduplicator (src/commitment_extractor.py, `_deduplicate_commitments`) -/

namespace Extractor

/-- Read a string-valued key from a JSON object (commitment records carry
string fields; other value types are out of the schemas in play). -/
def getStrKey (j : Json) (key : Str) : Option Str :=
  match j with
  | Json.obj f =>
    match lookupKey f key with
    | some (Json.str s) => some s
    | _ => none
  | _ => none

/-- The composite dedup key: the three schema-agnostic `or`-chains,
each stripped and lower-cased, joined with `"|"`.  Note that the join of
three empty parts is `"||"`, which is a non-empty (truthy) string. -/
def dedup_key (c : Json) : Str :=
  let p1 := pyOrD [getStrKey c "what".data, getStrKey c "commitment_text".data] []
  let p2 := pyOrD [getStrKey c "who".data, getStrKey c "committer_label".data] []
  let p3 := pyOrD [getStrKey c "to_whom".data, getStrKey c "recipient_label".data] []
  List.intercalate ['|']
    [lowerStr (stripStr p1), lowerStr (stripStr p2), lowerStr (stripStr p3)]

def dedupGo : List Json → List Str → List Json
  | [], _ => []
  | c :: cs, seen =>
    let key := dedup_key c
    if ¬key.isEmpty ∧ key ∉ seen then c :: dedupGo cs (key :: seen)
    else if key.isEmpty then c :: dedupGo cs seen
    else dedupGo cs seen

def deduplicate_commitments (cs : List Json) : List Json := dedupGo cs []

end Extractor

/-! ## Extraction orchestration (src/commitment_extractor.py)

The network is a trace oracle indexed by call order; `none` models the
`urllib.error.URLError` / `TimeoutError` cases which `_call_ollama`
catches and converts to `None`.  The two-element strategy list
`[("karpathy", ...), ("murati", ...)]` of `_extract_single` is unrolled;
the two attempts differ only in prompt text, which the trace oracle
accounts for by call position. -/

abbrev Net := Nat → Option Str

namespace Extractor

def unavailableResult : Json :=
  Json.obj [("commitments".data, Json.arr []),
            ("extraction_notes".data, Json.str "Ollama unavailable".data)]

def failedResult : Json :=
  Json.obj [("commitments".data, Json.arr []),
            ("extraction_notes".data,
             Json.str "extraction failed after 2 attempts".data)]

/-- `_extract_single`: up to two strategy attempts; a transport failure
returns the unavailable result immediately (no second attempt); a parse
failure falls through to the next strategy; exhaustion returns the
two-attempts failure result.  The second component is the next free
call index. -/
def extract_single (loads : Loads) (net : Net) (k : Nat) : Json × Nat :=
  match net k with
  | none => (unavailableResult, k + 1)
  | some raw =>
    match parse_json loads raw with
    | some parsed => (parsed, k + 1)
    | none =>
      match net (k + 1) with
      | none => (unavailableResult, k + 2)
      | some raw2 =>
        match parse_json loads raw2 with
        | some parsed => (parsed, k + 2)
        | none => (failedResult, k + 2)

/-- The commitments list of an extraction result (always a list for the
results `extract_single` produces). -/
def getListKey (j : Json) (key : Str) : List Json :=
  match j with
  | Json.obj f =>
    match lookupKey f key with
    | some (Json.arr l) => l
    | _ => []
  | _ => []

/-- Truthy `extraction_notes` of a result (the notes the source produces
are strings; an absent or empty value yields no note). -/
def getNotes (j : Json) : Option Str :=
  match j with
  | Json.obj f =>
    match lookupKey f "extraction_notes".data with
    | some (Json.str s) => if s.isEmpty then none else some s
    | _ => none
  | _ => none

/-- Python `c["id"] = n` on a commitment record.  The records the prompts
request are JSON objects; a non-object list entry would raise in Python
and is modelled as left unchanged (no claim depends on it). -/
def setId (c : Json) (n : Nat) : Json :=
  match c with
  | Json.obj f => Json.obj (setKey f "id".data (Json.num n))
  | other => other

/-- The per-chunk loop of `extract_commitments`: each chunk gets its own
`extract_single` (hence its own fresh two-attempt budget), its records are
re-numbered from the running base, and truthy notes are collected as
the string formed of the word chunk, the 1-based chunk number, a colon and
the notes.  Returns (records, note parts, next call index). -/
def extract_chunks (loads : Loads) (net : Net) :
    List Str → Nat → Nat → Nat → (List Json × List Str × Nat)
  | [], _, _, k => ([], [], k)
  | _chunk :: rest, i, base, k =>
    let r := extract_single loads net k
    let cs := getListKey r.1 "commitments".data
    let renumbered := cs.mapIdx (fun j c => setId c (base + j + 1))
    let tail := extract_chunks loads net rest (i + 1) (base + cs.length) r.2
    (renumbered ++ tail.1,
     (match getNotes r.1 with
      | some n =>
        ["chunk ".data ++ (toString (i + 1)).data ++ ": ".data ++ n]
      | none => []) ++ tail.2.1,
     tail.2.2)

/-- `extract_commitments`: short-transcript rejection, single-chunk fast
path, and the chunked merge (dedup, re-number, `_chunks`, joined notes).
Takes the chunking fuel because `chunk_transcript` is not total. -/
def extract_commitments (loads : Loads) (net : Net) (transcript : Str)
    (fuel : Nat) : Option Json :=
  if transcript.isEmpty ∨ (stripStr transcript).length < 50 then
    some (Json.obj [("commitments".data, Json.arr []),
                    ("extraction_notes".data,
                     Json.str "transcript too short".data)])
  else
    match Chunking.chunk_transcript transcript 25000 2000 fuel with
    | none => none
    | some chunks =>
      if chunks.length = 1 then some (extract_single loads net 0).1
      else
        let r := extract_chunks loads net chunks 0 0 0
        let unique := deduplicate_commitments r.1
        let renumbered := unique.mapIdx (fun i c => setId c (i + 1))
        let base := [("commitments".data, Json.arr renumbered),
                     ("_chunks".data, Json.num chunks.length)]
        some (Json.obj
          (if r.2.1.isEmpty then base
           else base ++ [("extraction_notes".data,
                          Json.str (List.intercalate "; ".data r.2.1))]))

end Extractor

/-! ## Raw commitment records

One record type covering the key sets of both extraction schemas
(Karpathy: `type/who/what/quote/...`; Murati:
`direction/committer_label/commitment_text/verbatim_quote/...`) plus the
ground-truth variants read by the evaluator.  Fields are optional
strings (a JSON `null` or absent key is `none`); the confidence is a
rational, the flags booleans, matching the values the schemas carry. -/

structure RawCommitment where
  type_ : Option Str := none
  direction : Option Str := none
  who : Option Str := none
  who_label : Option Str := none
  agent_label : Option Str := none
  committer_label : Option Str := none
  who_name : Option Str := none
  committer_name : Option Str := none
  agent_name : Option Str := none
  to_whom : Option Str := none
  to_label : Option Str := none
  recipient_label : Option Str := none
  beneficiary_label : Option Str := none
  to_whom_name : Option Str := none
  recipient_name : Option Str := none
  to_name : Option Str := none
  beneficiary_name : Option Str := none
  text : Option Str := none
  what : Option Str := none
  commitment_text : Option Str := none
  quote : Option Str := none
  verbatim_quote : Option Str := none
  verbatim : Option Str := none
  deadline : Option Str := none
  deadline_raw : Option Str := none
  deadline_type : Option Str := none
  timestamp : Option Str := none
  uncertain : Bool := false
  commitment_confidence : Option ℚ := none
  conditional : Bool := false
deriving DecidableEq, Repr

/-- Python `a or b` on two optional strings (result may itself be absent
or empty, exactly as in Python). -/
def pyOr2 (a b : Option Str) : Option Str :=
  match a with
  | some s => if s.isEmpty then b else some s
  | none => b

/-! ## Database normalizer (src/database.py, `_normalize_commitment`) -/

namespace DB

/-- The canonical commitment row of `insert_commitments`; `uncertain` is
the 0/1 integer the source stores. -/
structure NormalizedCommitment where
  direction : Str
  who_label : Str
  who_name : Option Str
  to_label : Option Str
  to_name : Option Str
  text : Str
  verbatim_quote : Option Str
  timestamp : Option Str
  deadline_raw : Option Str
  deadline_type : Option Str
  significance : Option Str
  uncertain : Nat
deriving DecidableEq, Repr

def direction_values : List Str :=
  ["outgoing".data, "incoming".data, "third_party".data]

/-- `Database._normalize_commitment`: Karpathy-format detection first
(`"type" in raw and "what" in raw`), then Murati
(`"direction" in raw and "commitment_text" in raw`), else `None`.
The Karpathy `direction_map` is the identity on the three known values
with default `""` (which is falsy, hence `None`). -/
def normalize_commitment (raw : RawCommitment) : Option NormalizedCommitment :=
  if raw.type_.isSome ∧ raw.what.isSome then
    let direction := raw.type_.getD []
    if direction ∈ direction_values then
      some { direction := direction,
             who_label := raw.who.getD [],
             who_name := raw.who_name,
             to_label := raw.to_whom,
             to_name := raw.to_whom_name,
             text := raw.what.getD [],
             verbatim_quote := raw.quote,
             timestamp := raw.timestamp,
             deadline_raw := raw.deadline,
             deadline_type := none,
             significance := none,
             uncertain := if raw.uncertain then 1 else 0 }
    else none
  else if raw.direction.isSome ∧ raw.commitment_text.isSome then
    let direction := raw.direction.getD []
    if direction ∈ direction_values then
      some { direction := direction,
             who_label := raw.committer_label.getD [],
             who_name := raw.committer_name,
             to_label := raw.recipient_label,
             to_name := raw.recipient_name,
             text := raw.commitment_text.getD [],
             verbatim_quote := raw.verbatim_quote,
             timestamp := raw.timestamp,
             deadline_raw := raw.deadline_raw,
             deadline_type := raw.deadline_type,
             significance := none,
             uncertain :=
               if (match raw.commitment_confidence with
                   | some q => decide (q < 4/5)
                   | none => false) || raw.conditional then 1 else 0 }
    else none
  else none

end DB

/-! ## Evaluation match engine (evaluation/evaluate.py) -/

namespace Eval

/-- `_normalize`: lowercase, strip, collapse whitespace runs. -/
def normalize (s : Str) : Str :=
  if s.isEmpty then []
  else List.intercalate [' '] (splitWs (stripStr (lowerStr s)))

/-- `_similarity` over the `SequenceMatcher.ratio` oracle. -/
def similarity (ratio : Str → Str → ℚ) (a b : Str) : ℚ :=
  if a.isEmpty || b.isEmpty then 0 else ratio (normalize a) (normalize b)

/-- `_speaker_match`: empty guard, exact normalized match, both
`speaker_me`-prefixed labels, or substring containment either way. -/
def speaker_match (a b : Str) : Bool :=
  if a.isEmpty || b.isEmpty then false
  else
    let na := normalize a
    let nb := normalize b
    if na = nb then true
    else if "speaker_me".data.isPrefixOf na && "speaker_me".data.isPrefixOf nb then true
    else if containsSeg na nb || containsSeg nb na then true
    else false

/-- `_deadline_match`: both null match; one null fails; otherwise fuzzy
similarity at least 0.6. -/
def deadline_match (ratio : Str → Str → ℚ) (a b : Option Str) : Bool :=
  match a, b with
  | none, none => true
  | some x, some y => decide (similarity ratio x y ≥ 3/5)
  | _, _ => false

/-- `Commitment` of evaluate.py. -/
structure Commitment where
  who : Str := []
  to_whom : Str := []
  text : Str := []
  direction : Str := []
  deadline : Option Str := none
  quote : Str := []
  uncertain : Bool := false
  conditional : Bool := false
deriving DecidableEq, Repr

def cdefault : Commitment := {}

/-- `Commitment.from_dict`: schema-agnostic field extraction with Python
truthy `or` chains and the `SPEAKER_`-label name overrides. -/
def Commitment.from_dict (d : RawCommitment) : Commitment :=
  let direction := pyOrD [d.direction, d.type_] []
  let who0 := pyOrD [d.who, d.committer_label, d.who_label, d.agent_label] []
  let who_name := pyOrD [d.who_name, d.committer_name, d.agent_name] []
  let who :=
    if ¬who_name.isEmpty ∧ "SPEAKER_".data.isPrefixOf who0 then who_name else who0
  let to0 := pyOrD [d.to_whom, d.recipient_label, d.to_label, d.beneficiary_label] []
  let to_name :=
    pyOrD [d.to_whom_name, d.recipient_name, d.to_name, d.beneficiary_name] []
  let to_whom :=
    if ¬to_name.isEmpty ∧ "SPEAKER_".data.isPrefixOf to0 then to_name else to0
  let text := pyOrD [d.text, d.what, d.commitment_text] []
  let quote := pyOrD [d.quote, d.verbatim_quote, d.verbatim] []
  let deadline := pyOr2 d.deadline d.deadline_raw
  let uncertain := d.uncertain ||
    (match d.commitment_confidence with
     | some q => decide (q < 1/2)
     | none => false)
  { who := who, to_whom := to_whom, text := text, direction := direction,
    deadline := deadline, quote := quote, uncertain := uncertain,
    conditional := d.conditional }

/-- `MatchResult` of evaluate.py. -/
structure MatchResult where
  gt_index : Nat
  pred_index : Option Nat := none
  similarity : ℚ := 0
  direction_match : Bool := false
  who_match : Bool := false
  to_whom_match : Bool := false
  deadline_match : Bool := false
deriving DecidableEq, Repr

/-- The multi-signal pair score with its tiered weighting (source lines
317-330 of evaluate.py; thresholds 0.40 and 0.35, weights 0.5/0.3/0.2,
0.3/0.5/0.2 and 0.33/0.34/0.33 as exact rationals). -/
def pairScore (ratio : Str → Str → ℚ) (g p : Commitment) : ℚ :=
  let quote_sim := similarity ratio g.quote p.quote
  let text_sim := similarity ratio g.text p.text
  let who_sim : ℚ := if speaker_match g.who p.who then 1 else 0
  if quote_sim ≥ 2/5 then
    1/2 * quote_sim + 3/10 * text_sim + 1/5 * who_sim
  else if text_sim ≥ 7/20 then
    3/10 * quote_sim + 1/2 * text_sim + 1/5 * who_sim
  else
    33/100 * quote_sim + 17/50 * text_sim + 33/100 * who_sim

/-- All (gt index, pred index, score) triples in row-major order, exactly
the flattening order of the source list comprehension. -/
def allPairs (ratio : Str → Str → ℚ) (gt pred : List Commitment) :
    List (Nat × Nat × ℚ) :=
  (List.range gt.length).flatMap (fun i =>
    (List.range pred.length).map (fun j =>
      (i, j, pairScore ratio (gt.getD i cdefault) (pred.getD j cdefault))))

/-- Position of a pair in the row-major flattening. -/
def flatPos (npred : Nat) (x : Nat × Nat × ℚ) : Nat := x.1 * npred + x.2.1

/-- The order realized by Python
`all_pairs.sort(key=lambda x: x[2], reverse=True)`: a stable descending
sort by score orders elements by (score descending, original position
ascending).  On the distinct positions of `allPairs` this is a total
antisymmetric order, so the sorted list is the unique sorted permutation
and any sorting algorithm produces it. -/
def pairLe (npred : Nat) (x y : Nat × Nat × ℚ) : Prop :=
  y.2.2 < x.2.2 ∨ (x.2.2 = y.2.2 ∧ flatPos npred x ≤ flatPos npred y)

instance (npred : Nat) : DecidableRel (pairLe npred) := fun x y => by
  unfold pairLe; infer_instance

instance (npred : Nat) : IsTotal (Nat × Nat × ℚ) (pairLe npred) := by
  constructor
  intro x y
  rcases lt_trichotomy x.2.2 y.2.2 with h | h | h
  · exact Or.inr (Or.inl h)
  · rcases Nat.le_total (flatPos npred x) (flatPos npred y) with hn | hn
    · exact Or.inl (Or.inr ⟨h, hn⟩)
    · exact Or.inr (Or.inr ⟨h.symm, hn⟩)
  · exact Or.inl (Or.inl h)

instance (npred : Nat) : IsTrans (Nat × Nat × ℚ) (pairLe npred) := by
  constructor
  intro x y z hxy hyz
  rcases hxy with h1 | ⟨e1, n1⟩
  · rcases hyz with h2 | ⟨e2, _⟩
    · exact Or.inl (h2.trans h1)
    · exact Or.inl (e2 ▸ h1)
  · rcases hyz with h2 | ⟨e2, n2⟩
    · exact Or.inl (e1 ▸ h2)
    · exact Or.inr ⟨e1.trans e2, n1.trans n2⟩

/-- The sorted pair list (see `pairLe`). -/
def sortPairs (npred : Nat) (l : List (Nat × Nat × ℚ)) :
    List (Nat × Nat × ℚ) :=
  List.insertionSort (pairLe npred) l

/-- The greedy assignment loop of `match_commitments`: skip pairs with a
claimed index, stop at the first remaining score below 0.25, otherwise
claim both indices.  Returns (assigned pairs in order, final used sets,
with the used lists extending the given ones). -/
def greedyWalk : List (Nat × Nat × ℚ) → List Nat → List Nat →
    (List (Nat × Nat × ℚ) × List Nat × List Nat)
  | [], used_gt, used_pred => ([], used_gt, used_pred)
  | (i, j, s) :: rest, used_gt, used_pred =>
    if i ∈ used_gt ∨ j ∈ used_pred then greedyWalk rest used_gt used_pred
    else if s < 1/4 then ([], used_gt, used_pred)
    else
      let r := greedyWalk rest (i :: used_gt) (j :: used_pred)
      ((i, j, s) :: r.1, r.2)

/-- The `MatchResult` the source constructs for an accepted pair. -/
def mkMatch (ratio : Str → Str → ℚ) (gt pred : List Commitment)
    (i j : Nat) (s : ℚ) : MatchResult :=
  let g := gt.getD i cdefault
  let p := pred.getD j cdefault
  { gt_index := i, pred_index := some j, similarity := s,
    direction_match := normalize g.direction == normalize p.direction,
    who_match := speaker_match g.who p.who,
    to_whom_match := speaker_match g.to_whom p.to_whom,
    deadline_match := deadline_match ratio g.deadline p.deadline }

/-- `match_commitments`: degenerate branches, greedy assignment, misses
for unclaimed reference indices, ascending unmatched predicted indices. -/
def match_commitments (ratio : Str → Str → ℚ) (gt pred : List Commitment) :
    List MatchResult × List Nat :=
  if gt.isEmpty then ([], List.range pred.length)
  else if pred.isEmpty then
    ((List.range gt.length).map (fun i => { gt_index := i, pred_index := none }), [])
  else
    let w := greedyWalk (sortPairs pred.length (allPairs ratio gt pred)) [] []
    let assigned := w.1.map (fun p => mkMatch ratio gt pred p.1 p.2.1 p.2.2)
    let ms := assigned ++
      ((List.range gt.length).filter (fun i => decide (i ∉ w.2.1))).map
        (fun i => { gt_index := i, pred_index := none })
    let unmatched := (List.range pred.length).filter (fun j => decide (j ∉ w.2.2))
    (ms, unmatched)

/-- `SessionResult` with its derived metrics (0/0 is 0.0 by the source
guards). -/
structure SessionResult where
  session_id : Str
  gt_count : Nat := 0
  pred_count : Nat := 0
  true_positives : Nat := 0
  false_positives : Nat := 0
  false_negatives : Nat := 0
  match_list : List MatchResult := []
  unmatched_preds : List Nat := []
deriving DecidableEq, Repr

def SessionResult.precision (r : SessionResult) : ℚ :=
  if r.true_positives + r.false_positives > 0 then
    (r.true_positives : ℚ) / ((r.true_positives : ℚ) + (r.false_positives : ℚ))
  else 0

def SessionResult.recall (r : SessionResult) : ℚ :=
  if r.true_positives + r.false_negatives > 0 then
    (r.true_positives : ℚ) / ((r.true_positives : ℚ) + (r.false_negatives : ℚ))
  else 0

def SessionResult.f1 (r : SessionResult) : ℚ :=
  if r.precision + r.recall > 0 then
    2 * r.precision * r.recall / (r.precision + r.recall)
  else 0

/-- `evaluate_session`. -/
def evaluate_session (ratio : Str → Str → ℚ) (session_id : Str)
    (gt_commitments pred_commitments : List RawCommitment) : SessionResult :=
  let gt_list := gt_commitments.map Commitment.from_dict
  let pred_list := pred_commitments.map Commitment.from_dict
  let mu := match_commitments ratio gt_list pred_list
  { session_id := session_id,
    gt_count := gt_list.length,
    pred_count := pred_list.length,
    true_positives := (mu.1.filter (fun m => m.pred_index.isSome)).length,
    false_positives := mu.2.length,
    false_negatives := (mu.1.filter (fun m => m.pred_index.isNone)).length,
    match_list := mu.1,
    unmatched_preds := mu.2 }

/-- Modelled from the claim wording of C6: walk the sorted list and assign
a pair exactly when its score is at least 0.25 and neither index is
already claimed. -/
def walkClaim : List (Nat × Nat × ℚ) → List Nat → List Nat →
    List (Nat × Nat × ℚ)
  | [], _, _ => []
  | (i, j, s) :: rest, ug, up =>
    if (1/4 : ℚ) ≤ s ∧ i ∉ ug ∧ j ∉ up then
      (i, j, s) :: walkClaim rest (i :: ug) (j :: up)
    else walkClaim rest ug up

/-- Modelled from the claim wording of C7: the permissive speaker-identity
check, spelled out as exact normalized match, both self-labels, or
substring containment either way (with the empty-identifier guard of the
check it names). -/
def specSpeakerSignal (a b : Str) : Prop :=
  a.isEmpty = false ∧ b.isEmpty = false ∧
    (normalize a = normalize b ∨
     ("speaker_me".data.isPrefixOf (normalize a) = true ∧
      "speaker_me".data.isPrefixOf (normalize b) = true) ∨
     containsSeg (normalize a) (normalize b) = true ∨
     containsSeg (normalize b) (normalize a) = true)

instance (a b : Str) : Decidable (specSpeakerSignal a b) := by
  unfold specSpeakerSignal; infer_instance

/-- Modelled from the claim wording of C7: the tiered combined score with
the speaker signal written through `specSpeakerSignal`. -/
def specScore (ratio : Str → Str → ℚ) (g p : Commitment) : ℚ :=
  let quote_sim := similarity ratio g.quote p.quote
  let text_sim := similarity ratio g.text p.text
  let who_sim : ℚ := if specSpeakerSignal g.who p.who then 1 else 0
  if quote_sim ≥ 2/5 then
    1/2 * quote_sim + 3/10 * text_sim + 1/5 * who_sim
  else if text_sim ≥ 7/20 then
    3/10 * quote_sim + 1/2 * text_sim + 1/5 * who_sim
  else
    33/100 * quote_sim + 17/50 * text_sim + 33/100 * who_sim

end Eval

/-! ## Concrete instances used as witnesses and counterexamples -/

/-- The zero similarity oracle (any oracle works for the statements that
use one; the degenerate branches under test never invoke it). -/
def ratio0 : Str → Str → ℚ := fun _ _ => 0

/-- A raw commitment record with every field absent. -/
def rc0 : RawCommitment := {}

/-- A truncated Murati-style response: strict parse fails, and the
truncation repair described by the spec would close `]` and `\x7d` and
succeed. -/
def c5raw : Str := "\x7b\"commitments\": [\x7b\"id\": 1\x7d".data

/-- The repaired text of `c5raw`. -/
def c5repaired : Str := "\x7b\"commitments\": [\x7b\"id\": 1\x7d]\x7d".data

/-- A `json.loads` oracle consistent with real JSON on the two strings the
C5 counterexample exercises: the truncated text does not parse, the
repaired text parses to an object with an empty-commitment-carrying list. -/
def c5loads : Loads := fun s =>
  if s = c5repaired then
    some (Json.obj [("commitments".data,
      Json.arr [Json.obj [("id".data, Json.num 1)]])])
  else none

/-- A Murati record that is accepted by the normalizer, carries no
confidence, and is conditional. -/
def c9cond : RawCommitment :=
  { direction := some "outgoing".data, commitment_text := some "x".data,
    conditional := true }

/-- The normalized row of `c9cond`. -/
def c9condRow : DB.NormalizedCommitment :=
  { direction := "outgoing".data, who_label := [], who_name := none,
    to_label := none, to_name := none, text := "x".data,
    verbatim_quote := none, timestamp := none, deadline_raw := none,
    deadline_type := none, significance := none, uncertain := 1 }

/-- A Murati record explicitly marked `uncertain` in the input, with no
confidence value and no conditional flag. -/
def c9marked : RawCommitment :=
  { direction := some "outgoing".data, commitment_text := some "x".data,
    uncertain := true }

/-! # Theorems -/

/-! ## Claims C1 and C4 (chunking) -/

theorem c4_loop_stuck_invalid_config :
    ∀ fuel chunks, Chunking.chunkLoop "ab".data 1 1 fuel 0 chunks = none := by
  intro fuel
  induction fuel with
  | zero => intro chunks; rfl
  | succ n ih =>
    intro chunks
    have step : Chunking.chunkLoop "ab".data 1 1 (n + 1) 0 chunks =
        Chunking.chunkLoop "ab".data 1 1 n 0 (chunks ++ [['a']]) := rfl
    rw [step]
    exact ih _

theorem c4_loop_stuck_valid_config :
    ∀ fuel chunks, Chunking.chunkLoop c4text 10 3 fuel 0 chunks = none := by
  intro fuel
  induction fuel with
  | zero => intro chunks; rfl
  | succ n ih =>
    intro chunks
    have step : Chunking.chunkLoop c4text 10 3 (n + 1) 0 chunks =
        Chunking.chunkLoop c4text 10 3 n 0 (chunks ++ ["ab\n".data]) := rfl
    rw [step]
    exact ih _

/-- C1: the chunk-reconstruction invariant fails on the code.  With
`max_chars = 10`, `overlap = 3` and the 12-character transcript
`"a\nbcdefghijk"`, `chunk_transcript` terminates and returns the chunks
`["a\n", "", "fghijk"]`; reconstructing (chunk 0 plus each later chunk
after its first 3 characters) yields `"a\nijk"`, which silently drops
`"bcde"` and is not the original text.  The middle iteration runs with
`start = -1`, slices an empty chunk and skips ahead. -/
theorem c1_reconstruction_failure :
    Chunking.chunk_transcript c1text 10 3 10 =
      some ["a\n".data, [], "fghijk".data] ∧
    Chunking.reconstruct 3 ["a\n".data, [], "fghijk".data] ≠ c1text := by
  decide

/-- C4: `chunk_transcript` is not total.  There is no boundary rejection of
non-positive `max_chars - overlap` in the source, and the loop does not
always advance: with `max_chars = 1`, `overlap = 1` on `"ab"` the loop
never terminates (the fuel-indexed embedding returns `none` for every
fuel), and even with a valid configuration `max_chars = 10 > overlap = 3`
the text `"ab\n" ++ "c"*30` makes the cut point stick at the newline, so
`start` never advances and the loop never terminates either. -/
theorem c4_nontermination :
    (∀ fuel, Chunking.chunk_transcript "ab".data 1 1 fuel = none) ∧
    (∀ fuel, Chunking.chunk_transcript c4text 10 3 fuel = none) :=
  ⟨fun fuel => c4_loop_stuck_invalid_config fuel [],
   fun fuel => c4_loop_stuck_valid_config fuel []⟩

/-! ## Claim C3 (deduplicator) -/

/-- C3: the empty-key branch of `_deduplicate_commitments` is dead code.
The key of a record with all three source fields blank is the join
`"||"`, which is a non-empty (truthy) string, so two all-blank records
are treated as duplicates and the second is dropped, contradicting the
never-deduplicated behaviour the claim (and the inline source comment)
describe. -/
theorem c3_blank_records_collapsed :
    (Extractor.deduplicate_commitments [Json.obj [], Json.obj []]).length = 1 ∧
    Extractor.dedup_key (Json.obj []) = ['|', '|'] := by
  decide

/-! ## Claim C5 (structured-response parse) -/

/-- C5 (amended): the parse used for commitment extraction performs the
cleanup (reasoning-block and fence stripping, whitespace strip) and then a
single strict parse with no truncation repair: the result is non-null
exactly when the strict parse of the cleaned text succeeds and yields a
mapping whose `commitments` value is a sequence.  (Truncation repair
exists only in the summarizer parse, which accepts any mapping.) -/
theorem c5_strict_parse_only (loads : Loads) (raw : Str) (v : Json) :
    Extractor.parse_json loads raw = some v ↔
      (loads (stripStr (stripFences (stripThink raw))) = some v ∧
       acceptCommitments v = true) := by
  unfold Extractor.parse_json
  cases h : loads (stripStr (stripFences (stripThink raw))) with
  | none => simp
  | some p =>
    show (if acceptCommitments p = true then some p else none) = some v ↔
      some p = some v ∧ acceptCommitments v = true
    by_cases hp : acceptCommitments p = true
    · rw [if_pos hp]
      constructor
      · intro he
        cases he
        exact ⟨rfl, hp⟩
      · rintro ⟨he, _⟩
        exact he
    · rw [if_neg hp]
      constructor
      · intro he
        exact absurd he (by simp)
      · rintro ⟨he, hv⟩
        cases he
        exact absurd hv hp

/-- C5 counterexample: on the truncated response
`\x7b"commitments": [\x7b"id": 1\x7d` the extractor parse returns null,
while the claimed behaviour (strict parse, then truncation repair, then
the commitments-shape check) returns a parsed object. -/
theorem c5_counterexample :
    Extractor.parse_json c5loads c5raw = none ∧
    (claimedExtractionParse c5loads c5raw).isSome = true :=
  ⟨rfl, rfl⟩

/-! ## Claim C9 (normalizer uncertainty) -/

/-- C9 (amended): for a record the normalizer maps through the Murati
branch, `uncertain` is 1 exactly when a confidence value is present and
below 0.8 or the conditional flag is set; an `uncertain` marking in the
raw record is ignored by this branch. -/
theorem c9_uncertainty_derivation (raw : RawCommitment)
    (n : DB.NormalizedCommitment)
    (hk : ¬(raw.type_.isSome ∧ raw.what.isSome))
    (hm : DB.normalize_commitment raw = some n) :
    (n.uncertain = 1 ↔
      ((∃ q, raw.commitment_confidence = some q ∧ q < 4/5) ∨
       raw.conditional = true)) := by
  unfold DB.normalize_commitment at hm
  rw [if_neg hk] at hm
  by_cases hd : raw.direction.isSome ∧ raw.commitment_text.isSome
  · rw [if_pos hd] at hm
    by_cases hv : raw.direction.getD [] ∈ DB.direction_values
    · rw [if_pos hv] at hm
      injection hm with hm
      subst hm
      cases hcc : raw.commitment_confidence with
      | none =>
        cases hcond : raw.conditional <;> simp [hcc, hcond]
      | some q =>
        by_cases hq : q < 4/5
        · simp [hcc, hq]
        · cases hcond : raw.conditional <;> simp [hcc, hcond, hq]
    · rw [if_neg hv] at hm
      exact absurd hm (by simp)
  · rw [if_neg hd] at hm
    exact absurd hm (by simp)

/-- C9 witness: a conditional Murati record without a confidence value is
accepted by the Murati branch and its normalized `uncertain` is 1. -/
theorem c9_uncertainty_derivation_witness :
    c9condRow.uncertain = 1 ↔
      ((∃ q, c9cond.commitment_confidence = some q ∧ q < 4/5) ∨
       c9cond.conditional = true) :=
  c9_uncertainty_derivation c9cond c9condRow (by decide) rfl

/-- C9 counterexample: a Murati record explicitly marked `uncertain: true`
in the input, with no confidence and no conditional flag, normalizes with
`uncertain = 0`, not 1 as the claim states. -/
theorem c9_marked_uncertain_ignored :
    (DB.normalize_commitment c9marked).map DB.NormalizedCommitment.uncertain
      = some 0 ∧
    (DB.normalize_commitment c9marked).map DB.NormalizedCommitment.uncertain
      ≠ some 1 := by
  decide

/-! ## Claim C8 (service-unavailable handling) -/

theorem extract_single_unavailable (loads : Loads) (net : Net) (k : Nat)
    (h : net k = none) :
    Extractor.extract_single loads net k = (Extractor.unavailableResult, k + 1) := by
  unfold Extractor.extract_single
  rw [h]

/-- C8: a transport failure on a chunk call yields the empty result with
the distinct unavailable note immediately — exactly one call is consumed,
no second strategy attempt is made, and no exception escapes (the
embedding of `_extract_single` is a total function into results); and in
the chunk loop a failed chunk contributes no records, contributes its
`chunk i: Ollama unavailable` note, and the remaining chunks are processed
unchanged starting at the next call index, each with its own full
two-attempt budget. -/
theorem c8_service_unavailable :
    (∀ (loads : Loads) (net : Net) (k : Nat), net k = none →
      Extractor.extract_single loads net k =
        (Extractor.unavailableResult, k + 1)) ∧
    (∀ (loads : Loads) (net : Net) (chunk : Str) (chunks : List Str)
        (i base k : Nat), net k = none →
      Extractor.extract_chunks loads net (chunk :: chunks) i base k =
        ((Extractor.extract_chunks loads net chunks (i + 1) base (k + 1)).1,
         ("chunk ".data ++ (toString (i + 1)).data ++ ": ".data ++
            "Ollama unavailable".data) ::
           (Extractor.extract_chunks loads net chunks (i + 1) base (k + 1)).2.1,
         (Extractor.extract_chunks loads net chunks (i + 1) base
            (k + 1)).2.2)) := by
  constructor
  · exact extract_single_unavailable
  · intro loads net chunk chunks i base k h
    show (let r := Extractor.extract_single loads net k
          let cs := Extractor.getListKey r.1 "commitments".data
          let renumbered := cs.mapIdx (fun j c => Extractor.setId c (base + j + 1))
          let tail := Extractor.extract_chunks loads net chunks (i + 1)
            (base + cs.length) r.2
          (renumbered ++ tail.1,
           (match Extractor.getNotes r.1 with
            | some n =>
              ["chunk ".data ++ (toString (i + 1)).data ++ ": ".data ++ n]
            | none => []) ++ tail.2.1,
           tail.2.2)) = _
    rw [extract_single_unavailable loads net k h]
    rfl

/-- C8 witness: with a network that refuses every call, a single-chunk
extraction returns the unavailable result after one call, and a one-chunk
loop produces no records, the chunk note, and hands call index 1 on. -/
theorem c8_service_unavailable_witness :
    Extractor.extract_single (fun _ => none) (fun _ => none) 0 =
      (Extractor.unavailableResult, 1) ∧
    Extractor.extract_chunks (fun _ => none) (fun _ => none) ["x".data] 0 0 0 =
      ([], ["chunk ".data ++ (toString 1).data ++ ": ".data ++
        "Ollama unavailable".data], 1) := by
  refine ⟨c8_service_unavailable.1 _ _ 0 rfl, ?_⟩
  rw [c8_service_unavailable.2 (fun _ => none) (fun _ => none) "x".data [] 0 0 0 rfl]
  rfl

/-! ## Claim C2 (precision/recall boundary) -/

theorem evaluate_session_empty_gt (ratio : Str → Str → ℚ) (sid : Str)
    (preds : List RawCommitment) :
    Eval.evaluate_session ratio sid [] preds =
      { session_id := sid, gt_count := 0, pred_count := preds.length,
        true_positives := 0, false_positives := preds.length,
        false_negatives := 0, match_list := [],
        unmatched_preds := List.range preds.length } := by
  unfold Eval.evaluate_session Eval.match_commitments
  simp

theorem evaluate_session_empty_pred (ratio : Str → Str → ℚ) (sid : Str)
    (gts : List RawCommitment) (h : gts ≠ []) :
    Eval.evaluate_session ratio sid gts [] =
      { session_id := sid, gt_count := gts.length, pred_count := 0,
        true_positives := 0, false_positives := 0,
        false_negatives := gts.length,
        match_list := (List.range gts.length).map
          (fun i => { gt_index := i, pred_index := none }),
        unmatched_preds := [] } := by
  have hne : (gts.map Eval.Commitment.from_dict).isEmpty = false := by
    cases gts with
    | nil => exact absurd rfl h
    | cons a l => rfl
  unfold Eval.evaluate_session Eval.match_commitments
  simp [hne, List.filter_map, Function.comp]
  have hall : ∀ a ∈ List.range gts.length,
      ((fun (m : Eval.MatchResult) => m.pred_index.isNone) ∘ fun i =>
        (⟨i, none, 0, false, false, false, false⟩ : Eval.MatchResult)) a
        = true := fun a _ => rfl
  rw [List.filter_eq_self.2 hall]
  exact List.length_range _

/-- C2 (amended): with an empty reference set, a session evaluates to
TP = 0, FN = 0, FP = the number of predictions (zero only when the
predicted set is also empty), and precision = recall = F1 = 0.0; with an
empty predicted set against a non-empty reference set, TP = FP = 0,
FN = the reference count, and precision = recall = 0.0.  Every 0/0
denominator is defined as 0.0 by the source guards. -/
theorem c2_degenerate_metrics (ratio : Str → Str → ℚ) (sid : Str) :
    (∀ preds : List RawCommitment,
      (Eval.evaluate_session ratio sid [] preds).true_positives = 0 ∧
      (Eval.evaluate_session ratio sid [] preds).false_negatives = 0 ∧
      (Eval.evaluate_session ratio sid [] preds).false_positives =
        preds.length ∧
      (Eval.evaluate_session ratio sid [] preds).precision = 0 ∧
      (Eval.evaluate_session ratio sid [] preds).recall = 0 ∧
      (Eval.evaluate_session ratio sid [] preds).f1 = 0) ∧
    (∀ gts : List RawCommitment, gts ≠ [] →
      (Eval.evaluate_session ratio sid gts []).true_positives = 0 ∧
      (Eval.evaluate_session ratio sid gts []).false_positives = 0 ∧
      (Eval.evaluate_session ratio sid gts []).false_negatives = gts.length ∧
      (Eval.evaluate_session ratio sid gts []).precision = 0 ∧
      (Eval.evaluate_session ratio sid gts []).recall = 0) := by
  constructor
  · intro preds
    rw [evaluate_session_empty_gt ratio sid preds]
    have hp : (⟨sid, 0, preds.length, 0, preds.length, 0, [],
        List.range preds.length⟩ : Eval.SessionResult).precision = 0 := by
      unfold Eval.SessionResult.precision
      split_ifs <;> simp
    have hr : (⟨sid, 0, preds.length, 0, preds.length, 0, [],
        List.range preds.length⟩ : Eval.SessionResult).recall = 0 := by
      unfold Eval.SessionResult.recall
      norm_num
    refine ⟨rfl, rfl, rfl, hp, hr, ?_⟩
    unfold Eval.SessionResult.f1
    rw [hp, hr]
    norm_num
  · intro gts h
    rw [evaluate_session_empty_pred ratio sid gts h]
    refine ⟨rfl, rfl, rfl, ?_, ?_⟩
    · unfold Eval.SessionResult.precision
      norm_num
    · unfold Eval.SessionResult.recall
      split_ifs <;> simp

/-- C2 witness: one reference record against no predictions gives
TP = 0, FP = 0, FN = 1 and zero precision and recall. -/
theorem c2_degenerate_metrics_witness :
    (Eval.evaluate_session ratio0 [] [rc0] []).true_positives = 0 ∧
    (Eval.evaluate_session ratio0 [] [rc0] []).false_positives = 0 ∧
    (Eval.evaluate_session ratio0 [] [rc0] []).false_negatives = 1 ∧
    (Eval.evaluate_session ratio0 [] [rc0] []).precision = 0 ∧
    (Eval.evaluate_session ratio0 [] [rc0] []).recall = 0 :=
  (c2_degenerate_metrics ratio0 []).2 [rc0] (List.cons_ne_nil _ _)

/-- C2 counterexample: with an empty reference set and one prediction the
session has FP = 1, not the FP = 0 the claim states for every predicted
set. -/
theorem c2_counterexample :
    (Eval.evaluate_session ratio0 [] [] [rc0]).false_positives ≠ 0 := by
  decide

/-! ## Greedy-walk lemmas (for C6 and C10) -/

theorem greedyWalk_cons_skip {i j : Nat} {s : ℚ} {rest : List (Nat × Nat × ℚ)}
    {ug up : List Nat} (hmem : i ∈ ug ∨ j ∈ up) :
    Eval.greedyWalk ((i, j, s) :: rest) ug up = Eval.greedyWalk rest ug up := by
  simp only [Eval.greedyWalk]
  rw [if_pos hmem]

theorem greedyWalk_cons_stop {i j : Nat} {s : ℚ} {rest : List (Nat × Nat × ℚ)}
    {ug up : List Nat} (hmem : ¬(i ∈ ug ∨ j ∈ up)) (hlow : s < 1/4) :
    Eval.greedyWalk ((i, j, s) :: rest) ug up = ([], ug, up) := by
  simp only [Eval.greedyWalk]
  rw [if_neg hmem, if_pos hlow]

theorem greedyWalk_cons_take {i j : Nat} {s : ℚ} {rest : List (Nat × Nat × ℚ)}
    {ug up : List Nat} (hmem : ¬(i ∈ ug ∨ j ∈ up)) (hlow : ¬s < 1/4) :
    Eval.greedyWalk ((i, j, s) :: rest) ug up =
      ((i, j, s) :: (Eval.greedyWalk rest (i :: ug) (j :: up)).1,
       (Eval.greedyWalk rest (i :: ug) (j :: up)).2) := by
  simp only [Eval.greedyWalk]
  rw [if_neg hmem, if_neg hlow]

theorem pairLe_score_le {n : Nat} {x y : Nat × Nat × ℚ}
    (h : Eval.pairLe n x y) : y.2.2 ≤ x.2.2 := by
  rcases h with h | ⟨h, _⟩
  · exact le_of_lt h
  · exact le_of_eq h.symm

theorem walkClaim_nil_of_low :
    ∀ (l : List (Nat × Nat × ℚ)), (∀ q ∈ l, q.2.2 < 1/4) →
      ∀ ug up, Eval.walkClaim l ug up = [] := by
  intro l
  induction l with
  | nil => intro _ ug up; rfl
  | cons p rest ih =>
    intro h ug up
    obtain ⟨i, j, s⟩ := p
    have hs : s < 1/4 := h (i, j, s) (List.mem_cons_self _ _)
    simp only [Eval.walkClaim]
    rw [if_neg]
    · exact ih (fun q hq => h q (List.mem_cons_of_mem _ hq)) _ _
    · rintro ⟨hle, _⟩
      exact absurd hs (not_lt.2 hle)

theorem greedyWalk_eq_walkClaim {n : Nat} :
    ∀ (l : List (Nat × Nat × ℚ)), l.Sorted (Eval.pairLe n) →
      ∀ ug up, (Eval.greedyWalk l ug up).1 = Eval.walkClaim l ug up := by
  intro l
  induction l with
  | nil => intro _ ug up; rfl
  | cons p rest ih =>
    intro hs ug up
    obtain ⟨i, j, s⟩ := p
    rw [List.sorted_cons] at hs
    obtain ⟨hall, hrest⟩ := hs
    by_cases hmem : i ∈ ug ∨ j ∈ up
    · have h2 : Eval.walkClaim ((i, j, s) :: rest) ug up =
          Eval.walkClaim rest ug up := by
        simp only [Eval.walkClaim]
        rw [if_neg]
        rintro ⟨_, hi, hj⟩
        rcases hmem with h | h
        exacts [hi h, hj h]
      rw [greedyWalk_cons_skip hmem, h2]
      exact ih hrest ug up
    · by_cases hlow : s < 1/4
      · have h2 : Eval.walkClaim ((i, j, s) :: rest) ug up =
            Eval.walkClaim rest ug up := by
          simp only [Eval.walkClaim]
          rw [if_neg]
          rintro ⟨hle, _⟩
          exact absurd hle (not_le.2 hlow)
        rw [greedyWalk_cons_stop hmem hlow, h2,
          walkClaim_nil_of_low rest
            (fun q hq => lt_of_le_of_lt (pairLe_score_le (hall q hq)) hlow) ug up]
      · have h2 : Eval.walkClaim ((i, j, s) :: rest) ug up =
            (i, j, s) :: Eval.walkClaim rest (i :: ug) (j :: up) := by
          simp only [Eval.walkClaim]
          rw [if_pos ⟨not_lt.1 hlow, fun hi => hmem (Or.inl hi),
            fun hj => hmem (Or.inr hj)⟩]
        rw [greedyWalk_cons_take hmem hlow, h2]
        simp only [List.cons.injEq, true_and]
        exact ih hrest _ _

theorem greedyWalk_assigned_mem :
    ∀ (l : List (Nat × Nat × ℚ)) (ug up : List Nat),
      ∀ p ∈ (Eval.greedyWalk l ug up).1, p ∈ l := by
  intro l
  induction l with
  | nil => intro ug up p hp; exact absurd hp (List.not_mem_nil p)
  | cons q rest ih =>
    intro ug up p hp
    obtain ⟨i, j, s⟩ := q
    by_cases hmem : i ∈ ug ∨ j ∈ up
    · rw [greedyWalk_cons_skip hmem] at hp
      exact List.mem_cons_of_mem _ (ih ug up p hp)
    · by_cases hlow : s < 1/4
      · rw [greedyWalk_cons_stop hmem hlow] at hp
        exact absurd hp (List.not_mem_nil p)
      · rw [greedyWalk_cons_take hmem hlow] at hp
        rw [List.mem_cons] at hp
        rcases hp with rfl | hp
        · exact List.mem_cons_self _ _
        · exact List.mem_cons_of_mem _ (ih _ _ p hp)

theorem greedyWalk_used_gt_eq :
    ∀ (l : List (Nat × Nat × ℚ)) (ug up : List Nat),
      (Eval.greedyWalk l ug up).2.1 =
        ((Eval.greedyWalk l ug up).1.map (fun p => p.1)).reverse ++ ug := by
  intro l
  induction l with
  | nil => intro ug up; rfl
  | cons q rest ih =>
    intro ug up
    obtain ⟨i, j, s⟩ := q
    by_cases hmem : i ∈ ug ∨ j ∈ up
    · rw [greedyWalk_cons_skip hmem]
      exact ih ug up
    · by_cases hlow : s < 1/4
      · rw [greedyWalk_cons_stop hmem hlow]
        rfl
      · rw [greedyWalk_cons_take hmem hlow]
        rw [ih (i :: ug) (j :: up)]
        simp [List.append_assoc]

theorem greedyWalk_used_pred_eq :
    ∀ (l : List (Nat × Nat × ℚ)) (ug up : List Nat),
      (Eval.greedyWalk l ug up).2.2 =
        ((Eval.greedyWalk l ug up).1.map (fun p => p.2.1)).reverse ++ up := by
  intro l
  induction l with
  | nil => intro ug up; rfl
  | cons q rest ih =>
    intro ug up
    obtain ⟨i, j, s⟩ := q
    by_cases hmem : i ∈ ug ∨ j ∈ up
    · rw [greedyWalk_cons_skip hmem]
      exact ih ug up
    · by_cases hlow : s < 1/4
      · rw [greedyWalk_cons_stop hmem hlow]
        rfl
      · rw [greedyWalk_cons_take hmem hlow]
        rw [ih (i :: ug) (j :: up)]
        simp [List.append_assoc]

theorem greedyWalk_nodup_gt :
    ∀ (l : List (Nat × Nat × ℚ)) (ug up : List Nat), ug.Nodup →
      (Eval.greedyWalk l ug up).2.1.Nodup := by
  intro l
  induction l with
  | nil => intro ug up h; exact h
  | cons q rest ih =>
    intro ug up h
    obtain ⟨i, j, s⟩ := q
    by_cases hmem : i ∈ ug ∨ j ∈ up
    · rw [greedyWalk_cons_skip hmem]
      exact ih ug up h
    · by_cases hlow : s < 1/4
      · rw [greedyWalk_cons_stop hmem hlow]
        exact h
      · rw [greedyWalk_cons_take hmem hlow]
        exact ih _ _ (List.nodup_cons.2 ⟨fun hi => hmem (Or.inl hi), h⟩)

theorem greedyWalk_nodup_pred :
    ∀ (l : List (Nat × Nat × ℚ)) (ug up : List Nat), up.Nodup →
      (Eval.greedyWalk l ug up).2.2.Nodup := by
  intro l
  induction l with
  | nil => intro ug up h; exact h
  | cons q rest ih =>
    intro ug up h
    obtain ⟨i, j, s⟩ := q
    by_cases hmem : i ∈ ug ∨ j ∈ up
    · rw [greedyWalk_cons_skip hmem]
      exact ih ug up h
    · by_cases hlow : s < 1/4
      · rw [greedyWalk_cons_stop hmem hlow]
        exact h
      · rw [greedyWalk_cons_take hmem hlow]
        exact ih _ _ (List.nodup_cons.2 ⟨fun hj => hmem (Or.inr hj), h⟩)

theorem mem_allPairs_bounds {ratio : Str → Str → ℚ}
    {gt pred : List Eval.Commitment} {p : Nat × Nat × ℚ}
    (hp : p ∈ Eval.allPairs ratio gt pred) :
    p.1 < gt.length ∧ p.2.1 < pred.length := by
  unfold Eval.allPairs at hp
  rw [List.mem_flatMap] at hp
  obtain ⟨i, hi, hp⟩ := hp
  rw [List.mem_map] at hp
  obtain ⟨j, hj, rfl⟩ := hp
  exact ⟨List.mem_range.1 hi, List.mem_range.1 hj⟩

theorem nodup_append_filter_perm {A : List Nat} {n : Nat}
    (hnd : A.Nodup) (hsub : ∀ x ∈ A, x < n) :
    (A ++ (List.range n).filter (fun i => decide (i ∉ A))).Perm
      (List.range n) := by
  have h1 : A.Perm ((List.range n).filter (fun i => decide (i ∈ A))) := by
    rw [List.perm_ext_iff_of_nodup hnd (List.Nodup.filter _ (List.nodup_range n))]
    intro a
    simp only [List.mem_filter, List.mem_range, decide_eq_true_iff]
    exact ⟨fun ha => ⟨hsub a ha, ha⟩, fun h => h.2⟩
  have h2 : (List.range n).filter (fun i => decide (i ∉ A)) =
      (List.range n).filter (fun i => !(decide (i ∈ A))) :=
    List.filter_congr (fun x _ => decide_not)
  rw [h2]
  exact (h1.append_right _).trans (List.filter_append_perm _ _)

theorem length_filter_add_length_filter_not {α : Type} (p : α → Bool)
    (l : List α) :
    (l.filter p).length + (l.filter (fun x => !(p x))).length = l.length := by
  have h := (List.filter_append_perm p l).length_eq
  rw [List.length_append] at h
  exact h

/-! ## Branch characterizations of `match_commitments` -/

theorem match_commitments_empty_gt {ratio : Str → Str → ℚ}
    {gt pred : List Eval.Commitment} (h : gt.isEmpty = true) :
    Eval.match_commitments ratio gt pred = ([], List.range pred.length) := by
  unfold Eval.match_commitments
  rw [if_pos h]

theorem match_commitments_empty_pred {ratio : Str → Str → ℚ}
    {gt pred : List Eval.Commitment} (hg : ¬gt.isEmpty = true)
    (hp : pred.isEmpty = true) :
    Eval.match_commitments ratio gt pred =
      ((List.range gt.length).map
        (fun i => { gt_index := i, pred_index := none }), []) := by
  unfold Eval.match_commitments
  rw [if_neg hg, if_pos hp]

theorem match_commitments_main {ratio : Str → Str → ℚ}
    {gt pred : List Eval.Commitment} (hg : ¬gt.isEmpty = true)
    (hp : ¬pred.isEmpty = true) :
    Eval.match_commitments ratio gt pred =
      ((Eval.greedyWalk (Eval.sortPairs pred.length
          (Eval.allPairs ratio gt pred)) [] []).1.map
          (fun p => Eval.mkMatch ratio gt pred p.1 p.2.1 p.2.2) ++
        ((List.range gt.length).filter (fun i => decide (i ∉
          (Eval.greedyWalk (Eval.sortPairs pred.length
            (Eval.allPairs ratio gt pred)) [] []).2.1))).map
          (fun i => { gt_index := i, pred_index := none }),
       (List.range pred.length).filter (fun j => decide (j ∉
         (Eval.greedyWalk (Eval.sortPairs pred.length
           (Eval.allPairs ratio gt pred)) [] []).2.2))) := by
  unfold Eval.match_commitments
  rw [if_neg hg, if_neg hp]

/-! ## Claim C6 (greedy assignment characterization) -/

/-- C6: the assigned part of `match_commitments` is exactly the walk the
claim describes: flatten all pair scores in original order, sort
descending with ties broken by original pair order (`pairLe` is the order
realized by the stable descending Python sort), and assign a pair iff its
score is at least 0.25 and neither index is already claimed, stopping at
the first score below 0.25.  The embedding is a pure function, so
repeated calls on identical inputs are identical by construction. -/
theorem c6_greedy_assignment (ratio : Str → Str → ℚ)
    (gt pred : List Eval.Commitment) :
    ((Eval.match_commitments ratio gt pred).1.filter
        (fun m => m.pred_index.isSome)).map
      (fun m => (m.gt_index, m.pred_index, m.similarity)) =
    (Eval.walkClaim
        (Eval.sortPairs pred.length (Eval.allPairs ratio gt pred)) [] []).map
      (fun p => (p.1, some p.2.1, p.2.2)) := by
  by_cases hg : gt.isEmpty = true
  · rw [match_commitments_empty_gt hg]
    have hnil : gt = [] := List.isEmpty_iff.1 hg
    subst hnil
    rfl
  · by_cases hp : pred.isEmpty = true
    · rw [match_commitments_empty_pred hg hp]
      have hnil : pred = [] := List.isEmpty_iff.1 hp
      subst hnil
      have h1 : Eval.allPairs ratio gt [] = [] := by
        simp [Eval.allPairs]
      have h2 : ((List.range gt.length).map (fun i =>
          ({ gt_index := i, pred_index := none } : Eval.MatchResult))).filter
          (fun m => m.pred_index.isSome) = [] :=
        List.filter_eq_nil_iff.2 (by
          intro m hm
          rw [List.mem_map] at hm
          obtain ⟨i, _, rfl⟩ := hm
          simp)
      rw [h1]
      show (((List.range gt.length).map (fun i =>
          ({ gt_index := i, pred_index := none } : Eval.MatchResult))).filter
          (fun m => m.pred_index.isSome)).map
          (fun m => (m.gt_index, m.pred_index, m.similarity)) = _
      rw [h2]
      rfl
    · simp only [match_commitments_main hg hp]
      have hsorted : (Eval.sortPairs pred.length
          (Eval.allPairs ratio gt pred)).Sorted (Eval.pairLe pred.length) :=
        List.sorted_insertionSort _ _
      rw [List.filter_append]
      have h1 : ((Eval.greedyWalk (Eval.sortPairs pred.length
          (Eval.allPairs ratio gt pred)) [] []).1.map
          (fun p => Eval.mkMatch ratio gt pred p.1 p.2.1 p.2.2)).filter
          (fun m => m.pred_index.isSome) =
          (Eval.greedyWalk (Eval.sortPairs pred.length
            (Eval.allPairs ratio gt pred)) [] []).1.map
          (fun p => Eval.mkMatch ratio gt pred p.1 p.2.1 p.2.2) :=
        List.filter_eq_self.2 (by
          intro m hm
          rw [List.mem_map] at hm
          obtain ⟨p, _, rfl⟩ := hm
          rfl)
      have h2 : (((List.range gt.length).filter (fun i => decide (i ∉
          (Eval.greedyWalk (Eval.sortPairs pred.length
            (Eval.allPairs ratio gt pred)) [] []).2.1))).map
          (fun i => ({ gt_index := i, pred_index := none } :
            Eval.MatchResult))).filter
          (fun m => m.pred_index.isSome) = [] :=
        List.filter_eq_nil_iff.2 (by
          intro m hm
          rw [List.mem_map] at hm
          obtain ⟨i, _, rfl⟩ := hm
          simp)
      rw [h1, h2, List.append_nil, List.map_map,
        greedyWalk_eq_walkClaim _ hsorted [] []]
      rfl

/-! ## Claim C7 (tiered weighting) -/

theorem speaker_match_iff (a b : Str) :
    Eval.speaker_match a b = true ↔ Eval.specSpeakerSignal a b := by
  unfold Eval.speaker_match Eval.specSpeakerSignal
  by_cases ha : a.isEmpty <;> by_cases hb : b.isEmpty
  · simp [ha, hb]
  · simp [ha, hb]
  · simp [ha, hb]
  · simp only [ha, hb, Bool.or_self, Bool.false_eq_true, if_false]
    split_ifs with h1 h2 h3 <;> simp_all

/-- C7: the combined pair score of `match_commitments` equals the tiered
formula of the claim — quote-dominant 0.5/0.3/0.2 when quote similarity
is at least 0.40, else text-dominant 0.3/0.5/0.2 when text similarity is
at least 0.35, else 0.33/0.34/0.33 — with the speaker signal equal to 1
exactly when the permissive speaker-identity check holds. -/
theorem c7_tiered_weighting (ratio : Str → Str → ℚ) (g p : Eval.Commitment) :
    Eval.pairScore ratio g p = Eval.specScore ratio g p := by
  have h : (if Eval.speaker_match g.who p.who then (1 : ℚ) else 0) =
      (if Eval.specSpeakerSignal g.who p.who then (1 : ℚ) else 0) :=
    if_congr (speaker_match_iff g.who p.who) rfl rfl
  simp only [Eval.pairScore, Eval.specScore]
  rw [h]

/-! ## Claim C10 (partition invariant) -/

/-- C10: `match_commitments` partitions both sides: every reference index
appears exactly once as a `gt_index`; the claimed predicted indices are
pairwise distinct and disjoint from the unmatched list; every predicted
index is claimed or unmatched; and matched + misses = reference count
while claimed + unmatched = predicted count. -/
theorem c10_partition (ratio : Str → Str → ℚ) (gt pred : List Eval.Commitment) :
    ((Eval.match_commitments ratio gt pred).1.map (fun m => m.gt_index)).Perm
      (List.range gt.length) ∧
    ((Eval.match_commitments ratio gt pred).1.filterMap
      (fun m => m.pred_index)).Nodup ∧
    (∀ j, j ∈ (Eval.match_commitments ratio gt pred).1.filterMap
        (fun m => m.pred_index) →
      j ∉ (Eval.match_commitments ratio gt pred).2) ∧
    (∀ j, j < pred.length →
      j ∈ (Eval.match_commitments ratio gt pred).1.filterMap
        (fun m => m.pred_index) ∨
      j ∈ (Eval.match_commitments ratio gt pred).2) ∧
    ((Eval.match_commitments ratio gt pred).1.filter
        (fun m => m.pred_index.isSome)).length +
      ((Eval.match_commitments ratio gt pred).1.filter
        (fun m => m.pred_index.isNone)).length = gt.length ∧
    ((Eval.match_commitments ratio gt pred).1.filterMap
      (fun m => m.pred_index)).length +
      (Eval.match_commitments ratio gt pred).2.length = pred.length := by
  by_cases hg : gt.isEmpty = true
  · have hnil : gt = [] := List.isEmpty_iff.1 hg
    subst hnil
    simp only [match_commitments_empty_gt hg]
    refine ⟨by simp, by simp, ?_, ?_, by simp, by simp⟩
    · intro j hj
      simp at hj
    · intro j hj
      exact Or.inr (List.mem_range.2 hj)
  · by_cases hp : pred.isEmpty = true
    · have hnil : pred = [] := List.isEmpty_iff.1 hp
      subst hnil
      simp only [match_commitments_empty_pred hg hp]
      have hFM : ((List.range gt.length).map (fun i =>
          ({ gt_index := i, pred_index := none } : Eval.MatchResult))).filterMap
          (fun m => m.pred_index) = [] := by
        rw [List.filterMap_map]
        exact List.filterMap_eq_nil_iff.2 (fun a _ => rfl)
      have hGT : ((List.range gt.length).map (fun i =>
          ({ gt_index := i, pred_index := none } : Eval.MatchResult))).map
          (fun m => m.gt_index) = List.range gt.length := by
        rw [List.map_map]
        exact List.map_id _
      have hSome : ((List.range gt.length).map (fun i =>
          ({ gt_index := i, pred_index := none } : Eval.MatchResult))).filter
          (fun m => m.pred_index.isSome) = [] :=
        List.filter_eq_nil_iff.2 (by
          intro m hm
          rw [List.mem_map] at hm
          obtain ⟨i, _, rfl⟩ := hm
          simp)
      have hNone : ((List.range gt.length).map (fun i =>
          ({ gt_index := i, pred_index := none } : Eval.MatchResult))).filter
          (fun m => m.pred_index.isNone) =
          (List.range gt.length).map (fun i =>
            ({ gt_index := i, pred_index := none } : Eval.MatchResult)) :=
        List.filter_eq_self.2 (by
          intro m hm
          rw [List.mem_map] at hm
          obtain ⟨i, _, rfl⟩ := hm
          rfl)
      refine ⟨?_, ?_, ?_, ?_, ?_, ?_⟩
      · rw [hGT]
      · rw [hFM]
        exact List.nodup_nil
      · intro j hj
        rw [hFM] at hj
        exact absurd hj (List.not_mem_nil j)
      · intro j hj
        exact absurd hj (Nat.not_lt_zero j)
      · rw [hSome, hNone]
        simp
      · rw [hFM]
        rfl
    · simp only [match_commitments_main hg hp]
      set w := Eval.greedyWalk (Eval.sortPairs pred.length
        (Eval.allPairs ratio gt pred)) [] [] with hw
      have hga : w.2.1 = (w.1.map (fun p => p.1)).reverse := by
        rw [hw, greedyWalk_used_gt_eq, List.append_nil]
      have hgb : w.2.2 = (w.1.map (fun p => p.2.1)).reverse := by
        rw [hw, greedyWalk_used_pred_eq, List.append_nil]
      have hAnd : (w.1.map (fun p => p.1)).Nodup := by
        have h := greedyWalk_nodup_gt (Eval.sortPairs pred.length
          (Eval.allPairs ratio gt pred)) [] [] List.nodup_nil
        rw [← hw, hga] at h
        exact List.nodup_reverse.1 h
      have hBnd : (w.1.map (fun p => p.2.1)).Nodup := by
        have h := greedyWalk_nodup_pred (Eval.sortPairs pred.length
          (Eval.allPairs ratio gt pred)) [] [] List.nodup_nil
        rw [← hw, hgb] at h
        exact List.nodup_reverse.1 h
      have hPmem : ∀ p ∈ w.1, p ∈ Eval.allPairs ratio gt pred := by
        intro p hp
        rw [hw] at hp
        have h1 := greedyWalk_assigned_mem _ [] [] p hp
        exact (List.perm_insertionSort (Eval.pairLe pred.length)
          (Eval.allPairs ratio gt pred)).mem_iff.1 h1
      have hAsub : ∀ x ∈ w.1.map (fun p => p.1), x < gt.length := by
        intro x hx
        rw [List.mem_map] at hx
        obtain ⟨p, hp, rfl⟩ := hx
        exact (mem_allPairs_bounds (hPmem p hp)).1
      have hBsub : ∀ x ∈ w.1.map (fun p => p.2.1), x < pred.length := by
        intro x hx
        rw [List.mem_map] at hx
        obtain ⟨p, hp, rfl⟩ := hx
        exact (mem_allPairs_bounds (hPmem p hp)).2
      have hfiltg : (List.range gt.length).filter
          (fun i => decide (i ∉ w.2.1)) =
          (List.range gt.length).filter
            (fun i => decide (i ∉ w.1.map (fun p => p.1))) :=
        List.filter_congr (fun x _ =>
          decide_eq_decide.2 (by rw [hga, List.mem_reverse]))
      have hfiltp : (List.range pred.length).filter
          (fun j => decide (j ∉ w.2.2)) =
          (List.range pred.length).filter
            (fun j => decide (j ∉ w.1.map (fun p => p.2.1))) :=
        List.filter_congr (fun x _ =>
          decide_eq_decide.2 (by rw [hgb, List.mem_reverse]))
      have hcomp1 : ((fun (m : Eval.MatchResult) => m.gt_index) ∘
          fun (p : Nat × Nat × ℚ) =>
            Eval.mkMatch ratio gt pred p.1 p.2.1 p.2.2) =
          (fun (p : Nat × Nat × ℚ) => p.1) := rfl
      have hcomp2 : ((fun (m : Eval.MatchResult) => m.gt_index) ∘
          fun i => ({ gt_index := i, pred_index := none } :
            Eval.MatchResult)) = id := rfl
      have hcomp3 : ((fun (m : Eval.MatchResult) => m.pred_index) ∘
          fun (p : Nat × Nat × ℚ) =>
            Eval.mkMatch ratio gt pred p.1 p.2.1 p.2.2) =
          (some ∘ fun (p : Nat × Nat × ℚ) => p.2.1) := rfl
      have hPermA : (((w.1.map (fun (p : Nat × Nat × ℚ) =>
          Eval.mkMatch ratio gt pred p.1 p.2.1 p.2.2)) ++
          ((List.range gt.length).filter
            (fun i => decide (i ∉ w.2.1))).map
            (fun i => ({ gt_index := i, pred_index := none } :
              Eval.MatchResult))).map
          (fun m => m.gt_index)).Perm (List.range gt.length) := by
        rw [List.map_append, List.map_map, List.map_map, hcomp1, hcomp2,
          List.map_id, hfiltg]
        exact nodup_append_filter_perm hAnd hAsub
      have hFM : ((w.1.map (fun (p : Nat × Nat × ℚ) =>
          Eval.mkMatch ratio gt pred p.1 p.2.1 p.2.2)) ++
          ((List.range gt.length).filter
            (fun i => decide (i ∉ w.2.1))).map
            (fun i => ({ gt_index := i, pred_index := none } :
              Eval.MatchResult))).filterMap
          (fun m => m.pred_index) =
          w.1.map (fun (p : Nat × Nat × ℚ) => p.2.1) := by
        rw [List.filterMap_append, List.filterMap_map, List.filterMap_map,
          hcomp3, List.filterMap_eq_map]
        have hmn : List.filterMap
            ((fun (m : Eval.MatchResult) => m.pred_index) ∘ fun i =>
              ({ gt_index := i, pred_index := none } : Eval.MatchResult))
            (List.filter (fun i => decide (i ∉ w.2.1))
              (List.range gt.length)) = [] :=
          List.filterMap_eq_nil_iff.2 (fun a _ => rfl)
        rw [hmn, List.append_nil]
      have hSome : ((w.1.map (fun (p : Nat × Nat × ℚ) =>
          Eval.mkMatch ratio gt pred p.1 p.2.1 p.2.2)) ++
          ((List.range gt.length).filter
            (fun i => decide (i ∉ w.2.1))).map
            (fun i => ({ gt_index := i, pred_index := none } :
              Eval.MatchResult))).filter
          (fun m => m.pred_index.isSome) =
          w.1.map (fun (p : Nat × Nat × ℚ) =>
            Eval.mkMatch ratio gt pred p.1 p.2.1 p.2.2) := by
        rw [List.filter_append]
        rw [List.filter_eq_self.2 (by
          intro m hm
          rw [List.mem_map] at hm
          obtain ⟨p, _, rfl⟩ := hm
          rfl)]
        rw [List.filter_eq_nil_iff.2 (by
          intro m hm
          rw [List.mem_map] at hm
          obtain ⟨i, _, rfl⟩ := hm
          simp), List.append_nil]
      have hNone : ((w.1.map (fun (p : Nat × Nat × ℚ) =>
          Eval.mkMatch ratio gt pred p.1 p.2.1 p.2.2)) ++
          ((List.range gt.length).filter
            (fun i => decide (i ∉ w.2.1))).map
            (fun i => ({ gt_index := i, pred_index := none } :
              Eval.MatchResult))).filter
          (fun m => m.pred_index.isNone) =
          ((List.range gt.length).filter
            (fun i => decide (i ∉ w.2.1))).map
            (fun i => ({ gt_index := i, pred_index := none } :
              Eval.MatchResult)) := by
        rw [List.filter_append]
        rw [List.filter_eq_nil_iff.2 (by
          intro m hm
          rw [List.mem_map] at hm
          obtain ⟨p, _, rfl⟩ := hm
          simp [Eval.mkMatch])]
        rw [List.filter_eq_self.2 (by
          intro m hm
          rw [List.mem_map] at hm
          obtain ⟨i, _, rfl⟩ := hm
          rfl), List.nil_append]
      refine ⟨hPermA, ?_, ?_, ?_, ?_, ?_⟩
      · rw [hFM]
        exact hBnd
      · intro j hj hum
        rw [hFM] at hj
        rw [List.mem_filter] at hum
        have h2 := of_decide_eq_true hum.2
        apply h2
        rw [hgb, List.mem_reverse]
        exact hj
      · intro j hjlt
        by_cases hb : j ∈ w.1.map (fun (p : Nat × Nat × ℚ) => p.2.1)
        · left
          rw [hFM]
          exact hb
        · right
          rw [List.mem_filter]
          refine ⟨List.mem_range.2 hjlt, decide_eq_true ?_⟩
          rw [hgb, List.mem_reverse]
          exact hb
      · rw [hSome, hNone]
        have hlen := hPermA.length_eq
        rw [List.length_map, List.length_append, List.length_range] at hlen
        exact hlen
      · rw [hFM]
        have hPermB := nodup_append_filter_perm hBnd hBsub
        have hlenB := hPermB.length_eq
        rw [List.length_append, List.length_range] at hlenB
        rw [hfiltp]
        exact hlenB
